import Mathlib

/-!
Slackbot: plugin registry, plugin invocation and the command handler

A shallow embedding of `plugins/plugins.go` (`New`, `Plugins.Run`) and of
`MakeCommandHandler` in `cmd/bot.go`, together with the few Go standard
library functions they call (`strings.HasPrefix`, `strings.Split`,
`strings.Join`, `path.Base`, `path.Join`).

Everything outside the process is explicit:

* the directory listing and the behaviour of a started child process are
  fields of `OS`;
* the slack client is a pair of functions telling whether a delivery fails;
* what a call does to the outside (start a process, kill it, post a message,
  upload a file) is recorded, in order, in a list of `Effect`s.

Log calls change neither results nor effects and are left out.
-/

/-! ## Go strings, errors, maps -/

/-- Go `string`: a sequence of bytes. -/
abbrev GoString := List UInt8

/-- A Go string literal: the UTF-8 encoding of its text. -/
def str (s : String) : GoString := s.data.flatMap String.utf8EncodeChar

/-- Go builtin `len` on a string: the number of bytes. -/
def len (s : GoString) : Nat := s.length

/-- The byte of the separator `" "` used by both calls of `strings.Split`. -/
def space : UInt8 := 32

/-- The byte `'/'` that separates path elements. -/
def slash : UInt8 := 47

/-- An error handed back by the slack client. -/
structure SlackError where
  text : GoString
  deriving DecidableEq, Repr

/-- An error handed back by the operating system (`ioutil.ReadDir`). -/
structure OSError where
  text : GoString
  deriving DecidableEq, Repr

/-- Go `error` values that reach the code of this repository. A value made by
`errors.New` or `fmt.Errorf` is a fresh object, never identical to an error
that a library call handed back. -/
inductive GoError
  | New (text : GoString)
  | Slack (e : SlackError)
  | OS (e : OSError)
  deriving DecidableEq, Repr

/-- Run-time panics of the Go runtime that the embedded code can raise. -/
inductive GoPanic
  | nilDereference
  | indexOutOfRange
  deriving DecidableEq, Repr

/-- Go `map[string]string`, as a list of pairs with pairwise distinct keys. -/
abbrev GoMap := List (GoString × GoString)

namespace GoMap

/-- Map read `v, ok := m[k]`. -/
def get? (m : GoMap) (k : GoString) : Option GoString :=
  match m with
  | [] => none
  | (k', v') :: rest => if k' = k then some v' else get? rest k

/-- Map write `m[k] = v`: overwrites the pair of an existing key. -/
def set (m : GoMap) (k v : GoString) : GoMap :=
  match m with
  | [] => [(k, v)]
  | (k', v') :: rest => if k' = k then (k, v) :: rest else (k', v') :: set rest k v

/-- The keys of the map. -/
def keys (m : GoMap) : List GoString := m.map Prod.fst

end GoMap

/-! ## Standard library: `strings` -/

namespace strings

/-- Go `strings.HasPrefix(s, pfx)`. -/
def HasPrefix (s pfx : GoString) : Bool := pfx.isPrefixOf s

/-- Go `strings.Split(s, sep)` for a separator of one byte: the substrings
between the occurrences of `sep`, one more than there are occurrences. -/
def Split (s : GoString) (sep : UInt8) : List GoString :=
  match s with
  | [] => [[]]
  | b :: rest =>
    if b = sep then [] :: Split rest sep
    else
      match Split rest sep with
      | [] => [[b]]
      | w :: ws => (b :: w) :: ws

/-- Go `strings.Join(elems, sep)`. -/
def Join (elems : List GoString) (sep : GoString) : GoString :=
  match elems with
  | [] => []
  | [e] => e
  | e :: rest => e ++ sep ++ Join rest sep

end strings

/-! ## Standard library: `path` -/

namespace path

/-- One step of `path.Clean` over the elements of a path, `out` holding the
elements written so far, last one first. -/
def cleanStep (rooted : Bool) (out : List GoString) (e : GoString) : List GoString :=
  if e = [] ∨ e = str "." then out
  else if e = str ".." then
    match out with
    | [] => if rooted then [] else [e]
    | top :: rest => if top = str ".." then e :: out else rest
  else e :: out

/-- Go `path.Clean`: the shortest path equivalent to `p` by lexical
processing (no empty and no `.` elements, `..` cancelling the element before
it, no `..` right after the root, `.` for the empty result). -/
def Clean (p : GoString) : GoString :=
  if p = [] then str "."
  else
    let rooted := p.head? = some slash
    let out := ((strings.Split p slash).foldl (cleanStep rooted) []).reverse
    let body := strings.Join out (str "/")
    if rooted then slash :: body
    else if body = [] then str "." else body

/-- Go `path.Join(a, b)`: the non-empty elements joined by `/`, then cleaned;
the empty string when both are empty. -/
def Join (a b : GoString) : GoString :=
  if a = [] ∧ b = [] then []
  else if a = [] then Clean b
  else Clean (a ++ str "/" ++ b)

/-- Go `path.Base`: the last element of the path, trailing slashes removed
first; `.` for the empty path and `/` for a path of slashes only. -/
def Base (p : GoString) : GoString :=
  if p = [] then str "."
  else
    let p := (p.reverse.dropWhile (fun b => b = slash)).reverse
    let p := (p.reverse.takeWhile (fun b => b ≠ slash)).reverse
    if p = [] then str "/" else p

end path

/-! ## The world outside the process -/

/-- What `ioutil.ReadDir` reports of one directory entry. -/
structure FileInfo where
  Name : GoString
  IsDir : Bool
  Mode : Nat
  deriving DecidableEq, Repr

/-- How a child process started by `Plugins.Run` ends, as `Run` sees it. -/
inductive ProcOutcome
  /-- The process ran and `c.Wait()` reported its exit code before the timer. -/
  | exited (stdout : GoString) (code : Nat)
  /-- The call `c.Start()` failed: `c.Wait()` reports at once, nothing is buffered. -/
  | launchFailed
  /-- The two-second timer fired first; `stdout` is what was buffered by then. -/
  | timedOut (stdout : GoString)
  deriving DecidableEq, Repr

/-- The operating system as the bot uses it. -/
structure OS where
  /-- The call `ioutil.ReadDir(directory)`. -/
  ReadDir : GoString → Except OSError (List FileInfo)
  /-- The fate of `exec.Command(command, args...)` once started. -/
  exec : GoString → List GoString → ProcOutcome

/-- Blocks of a slack message. -/
inductive Block
  /-- Block `slack.NewDividerBlock()`. -/
  | Divider
  /-- Block `slack.NewSectionBlock(slack.NewTextBlockObject(kind, text, false, false), nil, nil)`. -/
  | Section (kind text : GoString)
  deriving DecidableEq, Repr

/-- Options passed to `PostMessage`. -/
inductive MsgOption
  /-- Option `slack.MsgOptionTS(ts)`. -/
  | TS (ts : GoString)
  /-- Option `slack.MsgOptionText(text, escape)`. -/
  | Text (text : GoString) (escape : Bool)
  /-- Option `slack.MsgOptionBlocks(blocks...)`. -/
  | Blocks (blocks : List Block)
  deriving DecidableEq, Repr

/-- Go `slack.FileUploadParameters`, the fields the handler sets. -/
structure FileUploadParameters where
  File : GoString
  Content : GoString
  Filetype : GoString
  Filename : GoString
  Title : GoString
  Channels : List GoString
  deriving DecidableEq, Repr

/-- The slack client: whether a delivery fails. -/
structure SlackClient where
  PostMessage : GoString → List MsgOption → Option SlackError
  UploadFile : FileUploadParameters → Option SlackError

/-- Go `slack.MessageEvent`, the fields the handler reads. -/
structure MessageEvent where
  Channel : GoString
  Text : GoString
  Timestamp : GoString
  deriving DecidableEq, Repr

/-- What a call does to the world outside the process. -/
inductive Effect
  /-- A child process is started: `exec.Command(command, args...)`, `c.Start()`. -/
  | Start (command : GoString) (args : List GoString)
  /-- The child process is killed: `c.Process.Kill()`. -/
  | Kill (command : GoString)
  /-- A message is sent: `c.PostMessage(channelID, options...)`. -/
  | PostMessage (channelID : GoString) (options : List MsgOption)
  /-- A file is uploaded: `c.UploadFile(params)`. -/
  | UploadFile (params : FileUploadParameters)
  deriving DecidableEq, Repr

/-! ## Package `plugins` -/

namespace plugins

/-- Go `type Plugins struct`. -/
structure Plugins where
  Directory : GoString
  Available : GoMap
  deriving DecidableEq, Repr

/-- Go `func New(directory string) (*Plugins, error)`; a nil `*Plugins` is `none`. -/
def New (os : OS) (directory : GoString) : Option Plugins × Option GoError :=
  match os.ReadDir directory with
  | .error err => (none, some (GoError.OS err))
  | .ok files =>
    let pl : Plugins := { Directory := directory, Available := [] }
    let pl := files.foldl
      (fun pl file =>
        { pl with Available := pl.Available.set (path.Base file.Name) (path.Join directory file.Name) })
      pl
    (some pl, none)

/-- Go `func (p *Plugins) Run(name string, arguments string) (string, error)`:
the effects on the world, then the two results. -/
def Plugins.Run (p : Plugins) (os : OS) (name arguments : GoString) :
    List Effect × GoString × Option GoError :=
  match p.Available.get? name with
  | none => ([], str "", some (GoError.New (str "unknown command: " ++ name)))
  | some command =>
    let split := strings.Split arguments space
    match os.exec command split with
    | .exited stdout _ => ([Effect.Start command split], stdout, none)
    | .launchFailed => ([Effect.Start command split], [], none)
    | .timedOut stdout => ([Effect.Start command split, Effect.Kill command], stdout, none)

end plugins

/-! ## Package `cmd` -/

namespace cmd

open plugins

/-- Go `bot.MessageHandler`: the effects on the world, then the returned
`error` (`none` is `nil`), or the panic that ended the call. -/
abbrev MessageHandler := SlackClient → MessageEvent → List Effect × Except GoPanic (Option GoError)

/-- The block message that carries a short output, `blocks` in
`c.PostMessage(channelID, slack.MsgOptionBlocks(blocks...))`. -/
def outputBlocks (output : GoString) : List MsgOption :=
  [MsgOption.Blocks
    [Block.Divider, Block.Section (str "mrkdwn") (str "```" ++ output ++ str "```"), Block.Divider]]

/-- The `slack.FileUploadParameters` that carry a long output. -/
def outputFile (channelID cmd1 output : GoString) : FileUploadParameters :=
  { File := str "bot output"
    Content := output
    Filetype := str "text"
    Filename := str "output.txt"
    Title := str "Bot " ++ cmd1 ++ str " Output"
    Channels := [channelID] }

/-- The closure returned by `MakeCommandHandler`, for the address prefix `pfx`
and the registry `p`. -/
def commandHandler (os : OS) (pfx : GoString) (p : Plugins) : MessageHandler :=
  fun c m =>
  let channelID := m.Channel
  if strings.HasPrefix m.Text pfx then
    let cmd := strings.Split m.Text space
    if cmd.length = 1 then
      let options := [MsgOption.TS m.Timestamp,
        MsgOption.Text (str "please provide a command to me to run") false]
      let err := c.PostMessage channelID options
      ([Effect.PostMessage channelID options], .ok (err.map GoError.Slack))
    else
      match cmd with
      | _ :: cmd1 :: rest =>
        match p.Available.get? cmd1 with
        | some _ =>
          let (ran, output, _err) :=
            if cmd.length = 2 then p.Run os cmd1 (str "")
            else p.Run os cmd1 (strings.Join rest (str " "))
          let length := len output
          let (sent, err) :=
            if length < 2000 then
              ([Effect.PostMessage channelID (outputBlocks output)],
                c.PostMessage channelID (outputBlocks output))
            else ([], none)
          match err with
          | some err => (ran ++ sent, .ok (some (GoError.Slack err)))
          | none =>
            let (uploaded, err) :=
              if length ≥ 2000 then
                ([Effect.UploadFile (outputFile channelID cmd1 output)],
                  c.UploadFile (outputFile channelID cmd1 output))
              else ([], none)
            match err with
            | some err => (ran ++ sent ++ uploaded, .ok (some (GoError.Slack err)))
            | none => (ran ++ sent ++ uploaded, .ok none)
        | none =>
          let options :=
            [MsgOption.Text (str "sorry, I don't know how to *" ++ cmd1 ++ str "*") false]
          ([Effect.PostMessage channelID options], .ok none)
      | _ => ([], .error GoPanic.indexOutOfRange)
  else ([], .ok (some (GoError.New (str "not a message for me"))))

/-- Go `func MakeCommandHandler(prefix string, pluginDir string) bot.MessageHandler`.
The error of `plugins.New` is only logged; the loop `range p.Available` that
follows dereferences `p`, which panics when `p` is nil. -/
def MakeCommandHandler (os : OS) (pfx pluginDir : GoString) : Except GoPanic MessageHandler :=
  match New os pluginDir with
  | (none, _err) => .error GoPanic.nilDereference
  | (some p, _err) => .ok (commandHandler os pfx p)

end cmd

/-! ## Reading outcomes and effects -/

/-- The standard output that `Plugins.Run` has in its buffer when it returns. -/
def ProcOutcome.stdout : ProcOutcome → GoString
  | .exited out _ => out
  | .launchFailed => []
  | .timedOut out => out

/-- The effects that deliver something to the channel. -/
def Effect.isDelivery : Effect → Bool
  | .PostMessage _ _ => true
  | .UploadFile _ => true
  | _ => false

/-- A path element as a directory listing names its entries: not empty,
without a slash, and neither `.` nor `..`. -/
abbrev path.plain (e : GoString) : Prop :=
  e ≠ [] ∧ slash ∉ e ∧ e ≠ str "." ∧ e ≠ str ".."

/-- The path written element by element: `/a/b` for the rooted elements `a`, `b`,
`a/b` for the same elements unrooted, `/` for the root alone. -/
def path.ofElements (rooted : Bool) (elems : List GoString) : GoString :=
  (if rooted then [slash] else []) ++ strings.Join elems (str "/")

/-! ## Sample data -/

/-- A machine whose directory `/plugins` holds the one executable `echo`, and
on which every started process ends as `out`. -/
def demoOS (out : ProcOutcome) : OS :=
  { ReadDir := fun d =>
      if d = str "/plugins" then .ok [{ Name := str "echo", IsDir := false, Mode := 493 }]
      else .error { text := str "no such file or directory" }
    exec := fun _ _ => out }

/-- The registry that `plugins.New` builds for `/plugins` on `demoOS`. -/
def demoRegistry : plugins.Plugins :=
  { Directory := str "/plugins", Available := [(str "echo", str "/plugins/echo")] }

/-- A slack client whose deliveries all succeed. -/
def okClient : SlackClient :=
  { PostMessage := fun _ _ => none, UploadFile := fun _ => none }

/-- A slack client whose deliveries all fail. -/
def downClient : SlackClient :=
  { PostMessage := fun _ _ => some { text := str "channel_not_found" }
    UploadFile := fun _ => some { text := str "channel_not_found" } }

/-- A message with the given text in channel `C1`. -/
def demoMessage (text : String) : MessageEvent :=
  { Channel := str "C1", Text := str text, Timestamp := str "1.0" }

/-- A text of 1000 characters, each of two bytes in UTF-8. -/
def accented : String := String.mk (List.replicate 1000 'é')

/-- Four entries as a listing may give them: an executable, a directory, a
file that is not executable, and the name `echo` once more. -/
def demoFiles : List FileInfo :=
  [{ Name := str "echo", IsDir := false, Mode := 493 },
   { Name := str "lib", IsDir := true, Mode := 493 },
   { Name := str "notes.txt", IsDir := false, Mode := 420 },
   { Name := str "echo", IsDir := true, Mode := 448 }]

/-- A machine on which `/opt/plugins` and `./plugins/` list `demoFiles`. -/
def listingOS : OS :=
  { ReadDir := fun d =>
      if d = str "/opt/plugins" ∨ d = str "./plugins/" then .ok demoFiles
      else .error { text := str "no such file or directory" }
    exec := fun _ _ => .launchFailed }

/-! ## Lemmas on `strings` -/

namespace strings

theorem str_space : str " " = [space] := by decide

theorem str_empty : str "" = [] := rfl

theorem Split_ne_nil (s : GoString) (sep : UInt8) : Split s sep ≠ [] := by
  cases s with
  | nil => simp [Split]
  | cons b rest =>
    unfold Split
    split
    · simp
    · split <;> simp

theorem Split_of_not_mem {s : GoString} {sep : UInt8} (h : sep ∉ s) : Split s sep = [s] := by
  induction s with
  | nil => simp [Split]
  | cons b rest ih =>
    have hb : ¬ b = sep := fun e => h (by simp [e])
    have hr : sep ∉ rest := fun e => h (by simp [e])
    simp [Split, hb, ih hr]

theorem Split_append_sep {a : GoString} (b : GoString) {sep : UInt8} (h : sep ∉ a) :
    Split (a ++ sep :: b) sep = a :: Split b sep := by
  induction a with
  | nil => simp [Split]
  | cons x rest ih =>
    have hx : ¬ x = sep := fun e => h (by simp [e])
    have hr : sep ∉ rest := fun e => h (by simp [e])
    simp [Split, hx, ih hr]

theorem Split_length_eq_one_iff (s : GoString) (sep : UInt8) :
    (Split s sep).length = 1 ↔ sep ∉ s := by
  constructor
  · intro hl hmem
    obtain ⟨a, b, rfl⟩ := List.append_of_mem hmem
    induction a with
    | nil =>
      have := Split_ne_nil b sep
      cases hb : Split b sep with
      | nil => exact this hb
      | cons w ws => simp [Split, hb] at hl
    | cons x rest ih =>
      by_cases hx : x = sep
      · have := Split_ne_nil (rest ++ sep :: b) sep
        cases hb : Split (rest ++ sep :: b) sep with
        | nil => exact this hb
        | cons w ws => simp [Split, hx, hb] at hl
      · refine ih ?_ (by simp)
        cases hb : Split (rest ++ sep :: b) sep with
        | nil => exact absurd hb (Split_ne_nil _ _)
        | cons w ws =>
          simp [Split, hx, hb] at hl
          simp [hl]
  · intro h
    simp [Split_of_not_mem h]

theorem Split_Join (ts : List GoString) (hne : ts ≠ []) (h : ∀ t ∈ ts, space ∉ t) :
    Split (Join ts (str " ")) space = ts := by
  induction ts with
  | nil => exact absurd rfl hne
  | cons t rest ih =>
    cases rest with
    | nil => simpa [Join] using Split_of_not_mem (h t (by simp))
    | cons u us =>
      have ht : space ∉ t := h t (by simp)
      have hrest := ih (by simp) (fun x hx => h x (by simp [hx]))
      rw [str_space] at hrest ⊢
      rw [Join, List.append_assoc, List.singleton_append, Split_append_sep _ ht, hrest]
      simp

end strings

/-! ## The four ways through the command handler -/

namespace cmd

open plugins

/-- The text does not start with the prefix: nothing happens, the fixed error
is returned. -/
theorem commandHandler_other (os : OS) (pfx : GoString) (p : Plugins) (c : SlackClient)
    (m : MessageEvent) (h : strings.HasPrefix m.Text pfx = false) :
    commandHandler os pfx p c m
      = ([], .ok (some (GoError.New (str "not a message for me")))) := by
  simp [commandHandler, h]

/-- The text starts with the prefix and splits into one token: the prompt. -/
theorem commandHandler_prompt (os : OS) (pfx : GoString) (p : Plugins) (c : SlackClient)
    (m : MessageEvent) (h : strings.HasPrefix m.Text pfx = true)
    (hs : (strings.Split m.Text space).length = 1) :
    commandHandler os pfx p c m
      = ([Effect.PostMessage m.Channel [MsgOption.TS m.Timestamp,
            MsgOption.Text (str "please provide a command to me to run") false]],
          .ok ((c.PostMessage m.Channel [MsgOption.TS m.Timestamp,
            MsgOption.Text (str "please provide a command to me to run") false]).map
              GoError.Slack)) := by
  simp [commandHandler, h, hs]

/-- The second token is no key of the registry: the rejection, whose delivery
error is dropped. -/
theorem commandHandler_unknown (os : OS) (pfx : GoString) (p : Plugins) (c : SlackClient)
    (m : MessageEvent) (cmd0 cmd1 : GoString) (rest : List GoString)
    (h : strings.HasPrefix m.Text pfx = true)
    (hs : strings.Split m.Text space = cmd0 :: cmd1 :: rest)
    (hk : p.Available.get? cmd1 = none) :
    commandHandler os pfx p c m
      = ([Effect.PostMessage m.Channel
            [MsgOption.Text (str "sorry, I don't know how to *" ++ cmd1 ++ str "*") false]],
          .ok none) := by
  simp [commandHandler, h, hs, hk]

/-- The second token is a key of the registry: the plugin is run on the
remaining tokens joined by spaces, and its output goes out once, inline below
2000 bytes and as a file from 2000 bytes on. -/
theorem commandHandler_known (os : OS) (pfx : GoString) (p : Plugins) (c : SlackClient)
    (m : MessageEvent) (cmd0 cmd1 command : GoString) (rest : List GoString)
    (h : strings.HasPrefix m.Text pfx = true)
    (hs : strings.Split m.Text space = cmd0 :: cmd1 :: rest)
    (hk : p.Available.get? cmd1 = some command) :
    commandHandler os pfx p c m
      = if len (p.Run os cmd1 (strings.Join rest (str " "))).2.1 < 2000 then
          ((p.Run os cmd1 (strings.Join rest (str " "))).1 ++
              [Effect.PostMessage m.Channel
                (outputBlocks (p.Run os cmd1 (strings.Join rest (str " "))).2.1)],
            .ok ((c.PostMessage m.Channel
                (outputBlocks (p.Run os cmd1 (strings.Join rest (str " "))).2.1)).map
                  GoError.Slack))
        else
          ((p.Run os cmd1 (strings.Join rest (str " "))).1 ++
              [Effect.UploadFile
                (outputFile m.Channel cmd1 (p.Run os cmd1 (strings.Join rest (str " "))).2.1)],
            .ok ((c.UploadFile
                (outputFile m.Channel cmd1 (p.Run os cmd1 (strings.Join rest (str " "))).2.1)).map
                  GoError.Slack)) := by
  have hrun : (if (cmd0 :: cmd1 :: rest).length = 2 then p.Run os cmd1 (str "")
      else p.Run os cmd1 (strings.Join rest (str " ")))
      = p.Run os cmd1 (strings.Join rest (str " ")) := by
    cases rest with
    | nil => simp [strings.Join, strings.str_empty]
    | cons r rs => simp
  simp only [commandHandler, h, hs, hk, hrun]
  generalize p.Run os cmd1 (strings.Join rest (str " ")) = r
  obtain ⟨ran, output, err⟩ := r
  by_cases hl : len output < 2000
  · have hge : ¬ len output ≥ 2000 := by omega
    cases hc : c.PostMessage m.Channel (outputBlocks output) <;> simp [hl, hge, hc]
  · have hge : len output ≥ 2000 := by omega
    cases hc : c.UploadFile (outputFile m.Channel cmd1 output) <;> simp [hl, hge, hc]

end cmd

/-! ## Lemmas on `Plugins.Run` -/

namespace plugins

/-- A registered command is started on the split argument string; the buffered
standard output comes back without an error, whatever became of the process. -/
theorem Run_registered (p : Plugins) (os : OS) (name arguments command : GoString)
    (hk : p.Available.get? name = some command) :
    p.Run os name arguments
      = (Effect.Start command (strings.Split arguments space) ::
            (match os.exec command (strings.Split arguments space) with
              | .timedOut _ => [Effect.Kill command]
              | _ => []),
          (os.exec command (strings.Split arguments space)).stdout, none) := by
  simp only [Plugins.Run, hk]
  cases os.exec command (strings.Split arguments space) <;> simp [ProcOutcome.stdout]

/-- An unregistered name starts nothing. -/
theorem Run_unregistered (p : Plugins) (os : OS) (name arguments : GoString)
    (hk : p.Available.get? name = none) :
    p.Run os name arguments
      = ([], str "", some (GoError.New (str "unknown command: " ++ name))) := by
  simp [Plugins.Run, hk]

/-- The call `Run` delivers nothing to the channel itself. -/
theorem Run_no_delivery (p : Plugins) (os : OS) (name arguments : GoString) :
    (p.Run os name arguments).1.filter Effect.isDelivery = [] := by
  cases hk : p.Available.get? name with
  | none => simp [Run_unregistered p os name arguments hk]
  | some command =>
    rw [Run_registered p os name arguments command hk]
    cases os.exec command (strings.Split arguments space) <;> simp [Effect.isDelivery]

end plugins

/-- Byte length of the UTF-8 encoding of a character repeated `n` times. -/
theorem len_str_replicate (n : Nat) (c : Char) :
    len (str (String.mk (List.replicate n c))) = n * (String.utf8EncodeChar c).length := by
  induction n with
  | zero => simp [len, str]
  | succ k ih =>
    simp only [len, str] at ih ⊢
    simp only [List.replicate_succ, List.flatMap_cons, List.length_append, ih]
    ring

theorem len_str_accented : len (str accented) = 2000 := by
  rw [accented, len_str_replicate]; decide

/-! ## Lemmas on maps and on `plugins.New` -/

namespace GoMap

theorem get?_set (m : GoMap) (k v k' : GoString) :
    (m.set k v).get? k' = if k = k' then some v else m.get? k' := by
  induction m with
  | nil => simp [set, get?]
  | cons kv rest ih =>
    obtain ⟨a, b⟩ := kv
    by_cases hak : a = k
    · subst hak
      by_cases hk : a = k' <;> simp [set, get?, hk]
    · simp only [set, hak, if_false, get?, ih]
      by_cases hak' : a = k'
      · have hk : ¬ k = k' := fun e => hak (hak'.trans e.symm)
        simp [hak', hk]
      · simp [hak']

theorem mem_keys_set (m : GoMap) (k v k' : GoString) :
    k' ∈ (m.set k v).keys ↔ k' = k ∨ k' ∈ m.keys := by
  induction m with
  | nil => simp [set, keys]
  | cons kv rest ih =>
    obtain ⟨a, b⟩ := kv
    by_cases hak : a = k
    · subst hak
      simp [set, keys]
    · simp only [keys] at ih
      simp only [set, hak, if_false, keys, List.map_cons, List.mem_cons, ih]
      tauto

theorem nodup_keys_set (m : GoMap) (k v : GoString) (h : m.keys.Nodup) :
    (m.set k v).keys.Nodup := by
  induction m with
  | nil => simp [set, keys]
  | cons kv rest ih =>
    obtain ⟨a, b⟩ := kv
    simp only [keys, List.map_cons, List.nodup_cons] at h
    by_cases hak : a = k
    · subst hak
      simpa [set, keys] using h
    · have hmem := mem_keys_set rest k v a
      simp only [keys] at hmem ih
      simp only [set, if_neg hak, keys, List.map_cons, List.nodup_cons, hmem]
      exact ⟨fun hh => hh.elim hak h.1, ih h.2⟩

theorem get?_isSome_iff (m : GoMap) (k : GoString) : (m.get? k).isSome ↔ k ∈ m.keys := by
  induction m with
  | nil => simp [get?, keys]
  | cons kv rest ih =>
    obtain ⟨a, b⟩ := kv
    simp only [keys] at ih
    by_cases hak : a = k
    · simp [get?, keys, hak]
    · have hka : ¬ k = a := fun e => hak e.symm
      simp [get?, keys, hak, hka, ih]

end GoMap

namespace path

/-- A name without a slash, as a directory listing yields, is its own base. -/
theorem Base_eq_self (p : GoString) (hne : p ≠ []) (hs : slash ∉ p) : Base p = p := by
  have hd : p.reverse.dropWhile (fun b => decide (b = slash)) = p.reverse := by
    cases hr : p.reverse with
    | nil => rfl
    | cons x xs =>
      have hx : x ≠ slash := by
        intro e
        apply hs
        have : x ∈ p.reverse := by simp [hr]
        simpa [e] using this
      simp [List.dropWhile, hx]
  have ht : p.reverse.takeWhile (fun b => decide (b ≠ slash)) = p.reverse := by
    rw [List.takeWhile_eq_self_iff]
    intro x hx
    have : x ≠ slash := fun e => hs (by simpa [e] using hx)
    simpa using this
  simp only [Base, hne, if_false, hd, List.reverse_reverse, ht]

end path

namespace plugins

/-- The map that the loop of `New` builds from `m` over the listed files. -/
theorem New_fold (directory : GoString) (files : List FileInfo) (pl : Plugins) :
    files.foldl
        (fun pl file =>
          { pl with
            Available := pl.Available.set (path.Base file.Name) (path.Join directory file.Name) })
        pl
      = { Directory := pl.Directory
          Available := files.foldl
            (fun m file => GoMap.set m (path.Base file.Name) (path.Join directory file.Name))
            pl.Available } := by
  induction files generalizing pl with
  | nil => rfl
  | cons f fs ih => simp only [List.foldl_cons, ih]

theorem fold_get? (directory : GoString) (files : List FileInfo) (m : GoMap) (k : GoString) :
    GoMap.get?
        (files.foldl
          (fun m file => GoMap.set m (path.Base file.Name) (path.Join directory file.Name)) m) k
      = match files.reverse.find? (fun f => path.Base f.Name = k) with
        | some f => some (path.Join directory f.Name)
        | none => m.get? k := by
  induction files generalizing m with
  | nil => simp
  | cons f fs ih =>
    simp only [List.foldl_cons, ih, List.reverse_cons, List.find?_append]
    cases hfs : fs.reverse.find? (fun f => path.Base f.Name = k) with
    | some g => simp
    | none =>
      by_cases hf : path.Base f.Name = k <;> simp [GoMap.get?_set, hf]

theorem fold_mem_keys (directory : GoString) (files : List FileInfo) (m : GoMap)
    (k : GoString) :
    k ∈ GoMap.keys
        (files.foldl
          (fun m file => GoMap.set m (path.Base file.Name) (path.Join directory file.Name)) m)
      ↔ k ∈ m.keys ∨ ∃ f ∈ files, path.Base f.Name = k := by
  induction files generalizing m with
  | nil => simp
  | cons f fs ih =>
    simp only [List.foldl_cons, ih, GoMap.mem_keys_set, List.mem_cons, exists_eq_or_imp]
    constructor
    · rintro ((h | h) | h)
      · exact Or.inr (Or.inl h.symm)
      · exact Or.inl h
      · exact Or.inr (Or.inr h)
    · rintro (h | h | h)
      · exact Or.inl (Or.inr h)
      · exact Or.inl (Or.inl h.symm)
      · exact Or.inr h

theorem fold_nodup_keys (directory : GoString) (files : List FileInfo) (m : GoMap)
    (h : m.keys.Nodup) :
    (GoMap.keys
        (files.foldl
          (fun m file => GoMap.set m (path.Base file.Name) (path.Join directory file.Name))
          m)).Nodup := by
  induction files generalizing m with
  | nil => simpa using h
  | cons f fs ih =>
    simp only [List.foldl_cons]
    exact ih _ (GoMap.nodup_keys_set m _ _ h)

end plugins

/-! ## Lemmas on `path.Join` -/

namespace strings

theorem str_slash : str "/" = [slash] := by decide

theorem Split_Join_sep (sep : UInt8) (ts : List GoString) (hne : ts ≠ [])
    (h : ∀ t ∈ ts, sep ∉ t) : Split (Join ts [sep]) sep = ts := by
  induction ts with
  | nil => exact absurd rfl hne
  | cons t rest ih =>
    cases rest with
    | nil => simpa [Join] using Split_of_not_mem (h t (by simp))
    | cons u us =>
      have ht : sep ∉ t := h t (by simp)
      have hrest := ih (by simp) (fun x hx => h x (by simp [hx]))
      rw [Join, List.append_assoc, List.singleton_append, Split_append_sep _ ht, hrest]
      simp

theorem Join_append_singleton (ts : List GoString) (hne : ts ≠ []) (sep e : GoString) :
    Join (ts ++ [e]) sep = Join ts sep ++ sep ++ e := by
  induction ts with
  | nil => exact absurd rfl hne
  | cons t rest ih =>
    cases rest with
    | nil => simp [Join]
    | cons u us =>
      have := ih (by simp)
      simp only [List.cons_append] at this ⊢
      simp only [Join, this, List.append_assoc]

theorem Join_ne_nil (t : GoString) (rest : List GoString) (sep : GoString) (ht : t ≠ []) :
    Join (t :: rest) sep ≠ [] := by
  cases rest with
  | nil => simpa [Join] using ht
  | cons u us => simp [Join, ht]

theorem Join_head? (t : GoString) (rest : List GoString) (sep : GoString) (ht : t ≠ []) :
    (Join (t :: rest) sep).head? = t.head? := by
  cases t with
  | nil => exact absurd rfl ht
  | cons b bs => cases rest <;> simp [Join]

end strings

namespace path

theorem foldl_cleanStep (rooted : Bool) (elems acc : List GoString)
    (h : ∀ e ∈ elems, plain e) :
    elems.foldl (cleanStep rooted) acc = elems.reverse ++ acc := by
  induction elems generalizing acc with
  | nil => simp
  | cons e rest ih =>
    have he := h e (by simp)
    have hstep : cleanStep rooted acc e = e :: acc := by
      simp [cleanStep, he.1, he.2.2.1, he.2.2.2]
    rw [List.foldl_cons, hstep, ih _ (fun x hx => h x (by simp [hx]))]
    simp

theorem cleanStep_nil (rooted : Bool) (acc : List GoString) : cleanStep rooted acc [] = acc := by
  simp [cleanStep]

/-- A path written from plain elements is clean already. -/
theorem Clean_ofElements (rooted : Bool) (elems : List GoString)
    (h : ∀ e ∈ elems, plain e) (hne : rooted = true ∨ elems ≠ []) :
    Clean (ofElements rooted elems) = ofElements rooted elems := by
  have hsl : ∀ e ∈ elems, slash ∉ e := fun e he => (h e he).2.1
  cases rooted with
  | true =>
    cases elems with
    | nil => decide
    | cons e rest =>
      have hsplit := strings.Split_Join_sep slash (e :: rest) (by simp) hsl
      simp only [ofElements, strings.str_slash, if_true, List.singleton_append] at hsplit ⊢
      simp [Clean, strings.Split, hsplit, cleanStep_nil, foldl_cleanStep true (e :: rest) [] h,
        strings.str_slash]
  | false =>
    cases elems with
    | nil => simp at hne
    | cons e rest =>
      have he := h e (by simp)
      have hsplit := strings.Split_Join_sep slash (e :: rest) (by simp) hsl
      have hnil := strings.Join_ne_nil e rest [slash] he.1
      have hhead : ¬ (strings.Join (e :: rest) [slash]).head? = some slash := by
        rw [strings.Join_head? e rest _ he.1]
        intro hc
        exact he.2.1 (List.mem_of_mem_head? hc)
      simp [ofElements, strings.str_slash, Clean, hnil, hhead, hsplit,
        foldl_cleanStep _ (e :: rest) [] h]

theorem ofElements_append (rooted : Bool) (elems : List GoString) (hne : elems ≠ [])
    (name : GoString) :
    ofElements rooted (elems ++ [name]) = ofElements rooted elems ++ str "/" ++ name := by
  simp only [ofElements, strings.Join_append_singleton elems hne, List.append_assoc]

/-- Joining a clean directory with a plain name appends the name as one more
element. -/
theorem Join_ofElements (rooted : Bool) (elems : List GoString) (name : GoString)
    (h : ∀ e ∈ elems, plain e) (hne : rooted = true ∨ elems ≠ []) (hn : plain name) :
    Join (ofElements rooted elems) name = ofElements rooted (elems ++ [name]) := by
  have hall : ∀ e ∈ elems ++ [name], plain e := by
    intro e he
    rcases List.mem_append.1 he with he | he
    · exact h e he
    · simp only [List.mem_singleton] at he; exact he ▸ hn
  cases elems with
  | nil =>
    cases rooted with
    | false => simp at hne
    | true =>
      have hname : strings.Split name slash = [name] := strings.Split_of_not_mem hn.2.1
      have hstep : cleanStep true [] name = [name] := by
        simp [cleanStep, hn.1, hn.2.2.1, hn.2.2.2]
      have hp : ofElements true [] = [slash] := by simp [ofElements, strings.Join]
      have hq : ofElements true ([] ++ [name]) = slash :: name := by
        simp [ofElements, strings.Join]
      rw [hp, hq, Join, if_neg (by simp), if_neg (by simp), strings.str_slash]
      simp [Clean, strings.Split, hname, cleanStep_nil, hstep, strings.Join]
  | cons e rest =>
    have he := h e (by simp)
    have hdir : ofElements rooted (e :: rest) ≠ [] := by
      cases rooted <;> simp [ofElements, strings.Join_ne_nil e rest _ he.1]
    rw [Join, if_neg (fun hc => hdir hc.1), if_neg hdir,
      ← ofElements_append rooted (e :: rest) (by simp) name]
    exact Clean_ofElements rooted _ hall (Or.inr (by simp))

end path

/-! ## The claims -/

namespace cmd

open plugins

/-- C1 (amended): for a message whose second token is a registered command,
the handler attempts exactly one delivery of the output of the run: the inline
block message when the output is shorter than 2000 bytes (Go `len`), the file
upload when it has 2000 bytes or more. -/
theorem handler_one_delivery_by_byte_length (os : OS) (pfx : GoString) (p : Plugins)
    (c : SlackClient) (m : MessageEvent) (cmd0 cmd1 command : GoString) (rest : List GoString)
    (h : strings.HasPrefix m.Text pfx = true)
    (hs : strings.Split m.Text space = cmd0 :: cmd1 :: rest)
    (hk : p.Available.get? cmd1 = some command) :
    (commandHandler os pfx p c m).1.filter Effect.isDelivery
      = [if len (p.Run os cmd1 (strings.Join rest (str " "))).2.1 < 2000 then
          Effect.PostMessage m.Channel
            (outputBlocks (p.Run os cmd1 (strings.Join rest (str " "))).2.1)
        else
          Effect.UploadFile
            (outputFile m.Channel cmd1 (p.Run os cmd1 (strings.Join rest (str " "))).2.1)] := by
  rw [commandHandler_known os pfx p c m cmd0 cmd1 command rest h hs hk]
  split <;> simp [Run_no_delivery, Effect.isDelivery]

/-- C1, witness: `bot echo hello` with the output `hello` of five bytes. -/
theorem handler_one_delivery_by_byte_length_witness :
    (commandHandler (demoOS (.exited (str "hello") 0)) (str "bot") demoRegistry okClient
        (demoMessage "bot echo hello")).1.filter Effect.isDelivery
      = [if len (demoRegistry.Run (demoOS (.exited (str "hello") 0)) (str "echo")
              (strings.Join [str "hello"] (str " "))).2.1 < 2000 then
          Effect.PostMessage (demoMessage "bot echo hello").Channel
            (outputBlocks (demoRegistry.Run (demoOS (.exited (str "hello") 0)) (str "echo")
              (strings.Join [str "hello"] (str " "))).2.1)
        else
          Effect.UploadFile
            (outputFile (demoMessage "bot echo hello").Channel (str "echo")
              (demoRegistry.Run (demoOS (.exited (str "hello") 0)) (str "echo")
                (strings.Join [str "hello"] (str " "))).2.1)] :=
  handler_one_delivery_by_byte_length (demoOS (.exited (str "hello") 0)) (str "bot")
    demoRegistry okClient (demoMessage "bot echo hello") (str "bot") (str "echo")
    (str "/plugins/echo") [str "hello"] (by decide) (by decide) (by decide)

/-- C1, counterexample: an output of 1000 characters, fewer than 2000, that
takes 2000 bytes goes out as a file upload, not inline. -/
theorem output_of_1000_characters_uploaded :
    accented.length = 1000 ∧
    (commandHandler (demoOS (.exited (str accented) 0)) (str "bot") demoRegistry okClient
        (demoMessage "bot echo hi")).1
      = [Effect.Start (str "/plugins/echo") [str "hi"],
         Effect.UploadFile (outputFile (str "C1") (str "echo") (str accented))] := by
  refine ⟨List.length_replicate 1000 _, ?_⟩
  rw [commandHandler_known (demoOS (.exited (str accented) 0)) (str "bot") demoRegistry okClient
    (demoMessage "bot echo hi") (str "bot") (str "echo") (str "/plugins/echo") [str "hi"]
    (by decide) (by decide) (by decide)]
  rw [Run_registered demoRegistry _ (str "echo") _ (str "/plugins/echo") (by decide)]
  have hsp : strings.Split (strings.Join [str "hi"] (str " ")) space = [str "hi"] := by decide
  have hl : ¬ len (str accented) < 2000 := by rw [len_str_accented]; omega
  simp [demoOS, ProcOutcome.stdout, hsp, hl, demoMessage]

/-- C2: run with the empty argument string, the registered command `echo` is
started with one argument, the empty string, and the handler does the same for
the message `bot echo`. -/
theorem Run_empty_arguments_one_empty_argument :
    (demoRegistry.Run (demoOS (.exited (str "") 0)) (str "echo") (str "")).1
      = [Effect.Start (str "/plugins/echo") [str ""]] ∧
    [str ""] ≠ ([] : List GoString) ∧
    (commandHandler (demoOS (.exited (str "") 0)) (str "bot") demoRegistry okClient
        (demoMessage "bot echo")).1.head?
      = some (Effect.Start (str "/plugins/echo") [str ""]) := by
  decide

/-- C3 (amended): when the prefix, the command name and the n ≥ 1 argument
tokens hold no space and the text is these joined by one space each, the
handler runs the plugin registered under that command name on the argument
string made of the tokens joined by single spaces, the process is started with
exactly the tokens as its arguments, and one delivery follows. -/
theorem handler_runs_single_spaced_tokens (os : OS) (pfx : GoString) (p : Plugins)
    (c : SlackClient) (m : MessageEvent) (name command : GoString) (args : List GoString)
    (hp : space ∉ pfx) (hn : space ∉ name) (ha : ∀ t ∈ args, space ∉ t) (hne : args ≠ [])
    (hm : m.Text = strings.Join (pfx :: name :: args) (str " "))
    (hk : p.Available.get? name = some command) :
    (∃ delivery, Effect.isDelivery delivery = true ∧
      (commandHandler os pfx p c m).1
        = (p.Run os name (strings.Join args (str " "))).1 ++ [delivery]) ∧
    (p.Run os name (strings.Join args (str " "))).1.head?
      = some (Effect.Start command args) := by
  have hall : ∀ t ∈ pfx :: name :: args, space ∉ t := by
    intro t ht
    simp only [List.mem_cons] at ht
    rcases ht with rfl | rfl | ht
    · exact hp
    · exact hn
    · exact ha t ht
  have hs : strings.Split m.Text space = pfx :: name :: args := by
    rw [hm]; exact strings.Split_Join _ (by simp) hall
  have h : strings.HasPrefix m.Text pfx = true := by
    rw [hm]
    simp [strings.HasPrefix, strings.Join]
  constructor
  · rw [commandHandler_known os pfx p c m pfx name command args h hs hk]
    split
    · exact ⟨Effect.PostMessage _ _, rfl, rfl⟩
    · exact ⟨Effect.UploadFile _, rfl, rfl⟩
  · rw [Run_registered p os name _ command hk, strings.Split_Join args hne ha]
    rfl

/-- C3, witness: prefix `bot`, text `bot echo hello`. -/
theorem handler_runs_single_spaced_tokens_witness :
    (∃ delivery, Effect.isDelivery delivery = true ∧
      (commandHandler (demoOS (.exited (str "hello") 0)) (str "bot") demoRegistry okClient
          (demoMessage "bot echo hello")).1
        = (demoRegistry.Run (demoOS (.exited (str "hello") 0)) (str "echo")
            (strings.Join [str "hello"] (str " "))).1 ++ [delivery]) ∧
    (demoRegistry.Run (demoOS (.exited (str "hello") 0)) (str "echo")
        (strings.Join [str "hello"] (str " "))).1.head?
      = some (Effect.Start (str "/plugins/echo") [str "hello"]) :=
  handler_runs_single_spaced_tokens (demoOS (.exited (str "hello") 0)) (str "bot")
    demoRegistry okClient (demoMessage "bot echo hello") (str "echo") (str "/plugins/echo")
    [str "hello"] (by decide) (by decide) (by decide) (by decide) (by decide) (by decide)

/-- C3, counterexample: in `bot echo  hello` the whitespace before the one
argument token `hello` is two spaces; the plugin is started with the two
arguments `""` and `hello`. With tabs in place of the spaces no plugin runs at
all, and with the prefix `hey bot` the text `hey bot echo hello` is taken as
the unknown command `bot`. -/
theorem two_spaces_give_an_empty_argument :
    (commandHandler (demoOS (.exited (str "hello") 0)) (str "bot") demoRegistry okClient
        (demoMessage "bot echo  hello")).1.head?
      = some (Effect.Start (str "/plugins/echo") [str "", str "hello"]) ∧
    [str "", str "hello"] ≠ [str "hello"] ∧
    (commandHandler (demoOS (.exited (str "hello") 0)) (str "bot") demoRegistry okClient
        (demoMessage "bot\techo\thello")).1
      = [Effect.PostMessage (str "C1") [MsgOption.TS (str "1.0"),
          MsgOption.Text (str "please provide a command to me to run") false]] ∧
    (commandHandler (demoOS (.exited (str "hello") 0)) (str "hey bot") demoRegistry okClient
        (demoMessage "hey bot echo hello")).1
      = [Effect.PostMessage (str "C1")
          [MsgOption.Text (str "sorry, I don't know how to *bot*") false]] := by
  decide

/-- C4: the handler returns the error `not a message for me` exactly when the
text does not start with the prefix; then it starts no process and delivers
nothing, and every result it returns for a text that starts with the prefix is
either no error or an error of the slack client, never that error. -/
theorem not_a_message_for_me_iff (os : OS) (pfx : GoString) (p : Plugins) (c : SlackClient)
    (m : MessageEvent) :
    ((commandHandler os pfx p c m).2 = .ok (some (GoError.New (str "not a message for me")))
      ↔ strings.HasPrefix m.Text pfx = false) ∧
    (strings.HasPrefix m.Text pfx = false → (commandHandler os pfx p c m).1 = []) ∧
    (strings.HasPrefix m.Text pfx = true →
      (commandHandler os pfx p c m).2 = .ok none ∨
      ∃ e : SlackError, (commandHandler os pfx p c m).2 = .ok (some (GoError.Slack e))) := by
  have hmatch : strings.HasPrefix m.Text pfx = true →
      (commandHandler os pfx p c m).2 = .ok none ∨
      ∃ e : SlackError, (commandHandler os pfx p c m).2 = .ok (some (GoError.Slack e)) := by
    intro h
    by_cases h1 : (strings.Split m.Text space).length = 1
    · rw [commandHandler_prompt os pfx p c m h h1]
      cases c.PostMessage m.Channel _ <;> simp
    · obtain ⟨cmd0, cmd1, rest, hs⟩ :
          ∃ cmd0 cmd1 rest, strings.Split m.Text space = cmd0 :: cmd1 :: rest := by
        cases hsp : strings.Split m.Text space with
        | nil => exact absurd hsp (strings.Split_ne_nil _ _)
        | cons a l =>
          cases l with
          | nil => simp [hsp] at h1
          | cons b r => exact ⟨a, b, r, rfl⟩
      cases hk : p.Available.get? cmd1 with
      | none => rw [commandHandler_unknown os pfx p c m cmd0 cmd1 rest h hs hk]; simp
      | some command =>
        rw [commandHandler_known os pfx p c m cmd0 cmd1 command rest h hs hk]
        split
        · cases c.PostMessage m.Channel _ <;> simp
        · cases c.UploadFile _ <;> simp
  refine ⟨⟨?_, ?_⟩, ?_, hmatch⟩
  · intro hres
    by_contra hne
    have h : strings.HasPrefix m.Text pfx = true := by simpa using hne
    rcases hmatch h with h0 | ⟨e, he⟩
    · rw [h0] at hres; simp at hres
    · rw [he] at hres; simp at hres
  · intro h; rw [commandHandler_other os pfx p c m h]
  · intro h; rw [commandHandler_other os pfx p c m h]

/-- C4, witness: prefix `bot`, text `hello there`. -/
theorem not_a_message_for_me_iff_witness :
    (commandHandler (demoOS .launchFailed) (str "bot") demoRegistry okClient
        (demoMessage "hello there")).1 = [] :=
  (not_a_message_for_me_iff (demoOS .launchFailed) (str "bot") demoRegistry okClient
    (demoMessage "hello there")).2.1 (by decide)

/-- C5 (amended): for a text that starts with the prefix and holds no space
character (such as `bot` alone), the handler delivers the text
`please provide a command to me to run` and does nothing else: no rejection,
no plugin run. -/
theorem prompt_when_text_has_no_space (os : OS) (pfx : GoString) (p : Plugins)
    (c : SlackClient) (m : MessageEvent) (h : strings.HasPrefix m.Text pfx = true)
    (hs : space ∉ m.Text) :
    (commandHandler os pfx p c m).1
      = [Effect.PostMessage m.Channel [MsgOption.TS m.Timestamp,
          MsgOption.Text (str "please provide a command to me to run") false]] := by
  rw [commandHandler_prompt os pfx p c m h ((strings.Split_length_eq_one_iff _ _).2 hs)]

/-- C5, witness: prefix `bot`, text `bot`. -/
theorem prompt_when_text_has_no_space_witness :
    (commandHandler (demoOS .launchFailed) (str "bot") demoRegistry okClient
        (demoMessage "bot")).1
      = [Effect.PostMessage (demoMessage "bot").Channel [MsgOption.TS (demoMessage "bot").Timestamp,
          MsgOption.Text (str "please provide a command to me to run") false]] :=
  prompt_when_text_has_no_space (demoOS .launchFailed) (str "bot") demoRegistry okClient
    (demoMessage "bot") (by decide) (by decide)

/-- C5, counterexample: for the text `bot ` (the prefix and one space, so that
only whitespace follows the prefix) the handler delivers the rejection of the
empty command name, not the prompt. -/
theorem prefix_and_space_is_rejected :
    (commandHandler (demoOS .launchFailed) (str "bot") demoRegistry okClient
        (demoMessage "bot ")).1
      = [Effect.PostMessage (str "C1")
          [MsgOption.Text (str "sorry, I don't know how to **") false]] := by
  decide

/-- C6 (amended): for a text that starts with the prefix and whose second
token is no key of the registry, the handler delivers one inline text,
`sorry, I don't know how to *<name>*` with the second token for `<name>`, and
does nothing else: no plugin run, no upload. -/
theorem unknown_command_rejection (os : OS) (pfx : GoString) (p : Plugins)
    (c : SlackClient) (m : MessageEvent) (cmd0 cmd1 : GoString) (rest : List GoString)
    (h : strings.HasPrefix m.Text pfx = true)
    (hs : strings.Split m.Text space = cmd0 :: cmd1 :: rest)
    (hk : p.Available.get? cmd1 = none) :
    (commandHandler os pfx p c m).1
      = [Effect.PostMessage m.Channel
          [MsgOption.Text (str "sorry, I don't know how to *" ++ cmd1 ++ str "*") false]] := by
  rw [commandHandler_unknown os pfx p c m cmd0 cmd1 rest h hs hk]

/-- C6, witness: prefix `bot`, text `bot foo bar`, registry holding `echo` only. -/
theorem unknown_command_rejection_witness :
    (commandHandler (demoOS .launchFailed) (str "bot") demoRegistry okClient
        (demoMessage "bot foo bar")).1
      = [Effect.PostMessage (demoMessage "bot foo bar").Channel
          [MsgOption.Text (str "sorry, I don't know how to *" ++ str "foo" ++ str "*") false]] :=
  unknown_command_rejection (demoOS .launchFailed) (str "bot") demoRegistry okClient
    (demoMessage "bot foo bar") (str "bot") (str "foo") [str "bar"]
    (by decide) (by decide) (by decide)

/-- C6, counterexample: for `bot foo` the text delivered is
`sorry, I don't know how to *foo*`, which is not of the form
`unknown command: <name>`, with or without quotes around the name. -/
theorem rejection_text_is_not_unknown_command :
    (commandHandler (demoOS .launchFailed) (str "bot") demoRegistry okClient
        (demoMessage "bot foo")).1
      = [Effect.PostMessage (str "C1")
          [MsgOption.Text (str "sorry, I don't know how to *foo*") false]] ∧
    str "sorry, I don't know how to *foo*" ≠ str "unknown command: `foo`" ∧
    str "sorry, I don't know how to *foo*" ≠ str "unknown command: foo" := by
  decide

/-- C7 (amended): for a text that starts with the prefix, the handler returns
the error of the delivery it attempts, and no error when that delivery
succeeds, when the delivery is the prompt, the inline output or the file
upload; after the rejection of an unknown command it returns no error whether
or not the delivery failed. -/
theorem delivery_error_returned (os : OS) (pfx : GoString) (p : Plugins)
    (c : SlackClient) (m : MessageEvent) (h : strings.HasPrefix m.Text pfx = true) :
    ((strings.Split m.Text space).length = 1 →
      (commandHandler os pfx p c m).2
        = .ok ((c.PostMessage m.Channel [MsgOption.TS m.Timestamp,
            MsgOption.Text (str "please provide a command to me to run") false]).map
              GoError.Slack)) ∧
    (∀ cmd0 cmd1 rest, strings.Split m.Text space = cmd0 :: cmd1 :: rest →
      (∀ command, p.Available.get? cmd1 = some command →
        (len (p.Run os cmd1 (strings.Join rest (str " "))).2.1 < 2000 →
          (commandHandler os pfx p c m).2
            = .ok ((c.PostMessage m.Channel
                (outputBlocks (p.Run os cmd1 (strings.Join rest (str " "))).2.1)).map
                  GoError.Slack)) ∧
        (2000 ≤ len (p.Run os cmd1 (strings.Join rest (str " "))).2.1 →
          (commandHandler os pfx p c m).2
            = .ok ((c.UploadFile
                (outputFile m.Channel cmd1
                  (p.Run os cmd1 (strings.Join rest (str " "))).2.1)).map GoError.Slack))) ∧
      (p.Available.get? cmd1 = none → (commandHandler os pfx p c m).2 = .ok none)) := by
  refine ⟨fun h1 => ?_, fun cmd0 cmd1 rest hs => ⟨fun command hk => ⟨fun hl => ?_, fun hl => ?_⟩,
    fun hk => ?_⟩⟩
  · rw [commandHandler_prompt os pfx p c m h h1]
  · rw [commandHandler_known os pfx p c m cmd0 cmd1 command rest h hs hk, if_pos hl]
  · rw [commandHandler_known os pfx p c m cmd0 cmd1 command rest h hs hk,
      if_neg (by omega)]
  · rw [commandHandler_unknown os pfx p c m cmd0 cmd1 rest h hs hk]

/-- C7, witness: the prompt for `bot` fails to go out and the handler returns
the error of the slack client. -/
theorem delivery_error_returned_witness :
    (commandHandler (demoOS .launchFailed) (str "bot") demoRegistry downClient
        (demoMessage "bot")).2
      = .ok (some (GoError.Slack { text := str "channel_not_found" })) :=
  (delivery_error_returned (demoOS .launchFailed) (str "bot") demoRegistry downClient
    (demoMessage "bot") (by decide)).1 (by decide)

/-- C7, counterexample: the rejection of `bot foo` fails to go out, yet the
handler returns no error. -/
theorem rejection_error_dropped :
    downClient.PostMessage (str "C1")
        [MsgOption.Text (str "sorry, I don't know how to *foo*") false]
      = some { text := str "channel_not_found" } ∧
    commandHandler (demoOS .launchFailed) (str "bot") demoRegistry downClient
        (demoMessage "bot foo")
      = ([Effect.PostMessage (str "C1")
          [MsgOption.Text (str "sorry, I don't know how to *foo*") false]], .ok none) :=
  ⟨rfl, rfl⟩

/-- C8: the call `Run` returns an error exactly when the name is no key of the
registry, and then the output is empty and the error reads
`unknown command: <name>`; for a registered name it returns the standard
output buffered so far and no error, whatever the outcome of the process
(killed when the timer fired first), and the handler delivers that output
once, inline below 2000 bytes and as a file otherwise. -/
theorem Run_error_iff_unregistered (p : Plugins) (os : OS) (name arguments : GoString) :
    ((p.Run os name arguments).2.2 ≠ none ↔ p.Available.get? name = none) ∧
    (p.Available.get? name = none →
      (p.Run os name arguments).2
        = (str "", some (GoError.New (str "unknown command: " ++ name)))) ∧
    (∀ command, p.Available.get? name = some command →
      (p.Run os name arguments).2
        = ((os.exec command (strings.Split arguments space)).stdout, none) ∧
      (Effect.Kill command ∈ (p.Run os name arguments).1 ↔
        ∃ out, os.exec command (strings.Split arguments space) = .timedOut out) ∧
      ∀ (pfx : GoString) (c : SlackClient) (m : MessageEvent) (cmd0 : GoString)
        (rest : List GoString),
        strings.HasPrefix m.Text pfx = true →
        strings.Split m.Text space = cmd0 :: name :: rest →
        arguments = strings.Join rest (str " ") →
        (commandHandler os pfx p c m).1.filter Effect.isDelivery
          = [if len (os.exec command (strings.Split arguments space)).stdout < 2000 then
              Effect.PostMessage m.Channel
                (outputBlocks (os.exec command (strings.Split arguments space)).stdout)
            else
              Effect.UploadFile (outputFile m.Channel name
                (os.exec command (strings.Split arguments space)).stdout)]) := by
  refine ⟨?_, ?_, ?_⟩
  · cases hk : p.Available.get? name with
    | none => simp [Run_unregistered p os name arguments hk]
    | some command => simp [Run_registered p os name arguments command hk]
  · intro hk; rw [Run_unregistered p os name arguments hk]
  · intro command hk
    refine ⟨?_, ?_, ?_⟩
    · rw [Run_registered p os name arguments command hk]
    · rw [Run_registered p os name arguments command hk]
      cases os.exec command (strings.Split arguments space) <;> simp
    · intro pfx c m cmd0 rest h hs harg
      subst harg
      rw [commandHandler_known os pfx p c m cmd0 name command rest h hs hk,
        Run_registered p os name _ command hk]
      split <;> simp [Effect.isDelivery] <;>
        cases os.exec command (strings.Split (strings.Join rest (str " ")) space) <;>
        simp [Effect.isDelivery]

/-- C8, witness: `echo` is registered and its process is killed on the
timeout with `par` in the buffer; `Run` returns `par` and no error. -/
theorem Run_error_iff_unregistered_witness :
    (demoRegistry.Run (demoOS (.timedOut (str "par"))) (str "echo") (str "a b")).2
      = (((demoOS (.timedOut (str "par"))).exec (str "/plugins/echo")
          (strings.Split (str "a b") space)).stdout, none) :=
  ((Run_error_iff_unregistered demoRegistry (demoOS (.timedOut (str "par"))) (str "echo")
    (str "a b")).2.2 (str "/plugins/echo") (by decide)).1

end cmd

namespace plugins

/-- C9: when the directory can be listed, `New` returns a registry and no
error; the keys of its map are exactly the base filenames of the listed
entries, whatever the type of an entry, each mapped to the directory joined
with the name of the last entry of that base filename; the map has as many
pairs as there are distinct base filenames, so N entries of distinct base
filenames give N pairs; and a lookup finds a name exactly when it is one of
these base filenames. When the entry names are non-empty and hold no slash, as
in a directory listing, each name is its own base filename and is mapped to
the directory joined with it. When moreover the directory is a clean path
(plain elements separated by single slashes, rooted or not) and no entry is
named `.` or `..`, the path registered for an entry is the directory, a slash
and the name of the entry, and the root `/` followed by the name when the
directory is the root. -/
theorem New_registers_every_entry (os : OS) (directory : GoString) (files : List FileInfo)
    (h : os.ReadDir directory = .ok files) :
    ∃ pl : Plugins, New os directory = (some pl, none) ∧
      pl.Directory = directory ∧
      pl.Available.keys.Nodup ∧
      (∀ k, k ∈ pl.Available.keys ↔ ∃ f ∈ files, path.Base f.Name = k) ∧
      (∀ k, pl.Available.get? k
        = (files.reverse.find? (fun f => path.Base f.Name = k)).map
            (fun f => path.Join directory f.Name)) ∧
      pl.Available.length = ((files.map (fun f => path.Base f.Name)).dedup).length ∧
      ((files.map (fun f => path.Base f.Name)).Nodup → pl.Available.length = files.length) ∧
      (∀ k, (pl.Available.get? k).isSome ↔ ∃ f ∈ files, path.Base f.Name = k) ∧
      ((∀ f ∈ files, f.Name ≠ [] ∧ slash ∉ f.Name) →
        ∀ f ∈ files, path.Base f.Name = f.Name ∧
          pl.Available.get? f.Name = some (path.Join directory f.Name)) ∧
      (∀ (rooted : Bool) (elems : List GoString),
        directory = path.ofElements rooted elems →
        (∀ e ∈ elems, path.plain e) → (rooted = true ∨ elems ≠ []) →
        (∀ f ∈ files, path.plain f.Name) →
        ∀ f ∈ files,
          pl.Available.get? f.Name
            = some (if elems = [] then slash :: f.Name else directory ++ str "/" ++ f.Name)) := by
  have hkeys : ∀ k, k ∈ GoMap.keys
      (files.foldl
        (fun m file => GoMap.set m (path.Base file.Name) (path.Join directory file.Name)) [])
      ↔ ∃ f ∈ files, path.Base f.Name = k := by
    intro k
    rw [fold_mem_keys]
    simp [GoMap.keys]
  have hnodup := fold_nodup_keys directory files [] (by simp [GoMap.keys])
  have hlen : (files.foldl
        (fun m file => GoMap.set m (path.Base file.Name) (path.Join directory file.Name))
        ([] : GoMap)).length
      = ((files.map (fun f => path.Base f.Name)).dedup).length := by
    have hperm : List.Perm
        (GoMap.keys (files.foldl
          (fun m file => GoMap.set m (path.Base file.Name) (path.Join directory file.Name)) []))
        ((files.map (fun f => path.Base f.Name)).dedup) := by
      rw [List.perm_ext_iff_of_nodup hnodup (List.nodup_dedup _)]
      intro k
      rw [hkeys k, List.mem_dedup, List.mem_map]
    have := hperm.length_eq
    simpa [GoMap.keys] using this
  have hself : (∀ f ∈ files, f.Name ≠ [] ∧ slash ∉ f.Name) →
      ∀ f ∈ files, path.Base f.Name = f.Name ∧
        GoMap.get? (files.foldl
          (fun m file => GoMap.set m (path.Base file.Name) (path.Join directory file.Name)) [])
          f.Name = some (path.Join directory f.Name) := by
    intro hall f hf
    have hbase : ∀ g ∈ files, path.Base g.Name = g.Name :=
      fun g hg => path.Base_eq_self g.Name (hall g hg).1 (hall g hg).2
    refine ⟨hbase f hf, ?_⟩
    rw [fold_get?]
    cases hfind : files.reverse.find? (fun g => path.Base g.Name = f.Name) with
    | none =>
      have := List.find?_eq_none.1 hfind f (by simpa using hf)
      simp [hbase f hf] at this
    | some g =>
      have hg : g ∈ files := by simpa using List.mem_of_find?_eq_some hfind
      have hgk : path.Base g.Name = f.Name := by simpa using List.find?_some hfind
      rw [hbase g hg] at hgk
      simp [hgk]
  refine ⟨{ Directory := directory
            Available := files.foldl
              (fun m file => GoMap.set m (path.Base file.Name) (path.Join directory file.Name))
              [] }, ?_, rfl, hnodup, hkeys, ?_, hlen, ?_, ?_, hself, ?_⟩
  · simp only [New, h, New_fold]
  · intro k
    rw [fold_get?]
    cases files.reverse.find? (fun f => path.Base f.Name = k) <;> simp [GoMap.get?]
  · intro hnd
    rw [hlen, List.Nodup.dedup hnd, List.length_map]
  · intro k
    rw [GoMap.get?_isSome_iff, hkeys k]
  · intro rooted elems hdir hel hne hall f hf
    have hplain := hall f hf
    rw [(hself (fun g hg => ⟨(hall g hg).1, (hall g hg).2.1⟩) f hf).2, hdir,
      path.Join_ofElements rooted elems f.Name hel hne hplain]
    by_cases he : elems = []
    · subst he
      have hr : rooted = true := by simpa using hne
      subst hr
      simp [path.ofElements, strings.Join]
    · rw [if_neg he, path.ofElements_append rooted elems he]

/-- C9, witness: `/opt/plugins` lists four entries, two of them named `echo`;
the registry has three pairs, each name mapped to `/opt/plugins/<name>`, and a
directory and a file that is not executable are registered like the rest. The
listing of `./plugins/` registers `plugins/<name>`. -/
theorem New_registers_every_entry_witness :
    New listingOS (str "/opt/plugins")
      = (some { Directory := str "/opt/plugins"
                Available := [(str "echo", str "/opt/plugins/echo"),
                  (str "lib", str "/opt/plugins/lib"),
                  (str "notes.txt", str "/opt/plugins/notes.txt")] }, none) ∧
    New listingOS (str "./plugins/")
      = (some { Directory := str "./plugins/"
                Available := [(str "echo", str "plugins/echo"),
                  (str "lib", str "plugins/lib"),
                  (str "notes.txt", str "plugins/notes.txt")] }, none) ∧
    ∃ pl : Plugins, New listingOS (str "/opt/plugins") = (some pl, none) ∧
      pl.Available.length = 3 ∧
      (∀ k, (pl.Available.get? k).isSome ↔ ∃ f ∈ demoFiles, path.Base f.Name = k) ∧
      (∀ f ∈ demoFiles,
        pl.Available.get? f.Name = some (str "/opt/plugins" ++ str "/" ++ f.Name)) := by
  refine ⟨by decide, by decide, ?_⟩
  obtain ⟨pl, hnew, _, _, _, _, hlen, _, hsome, _, hpin⟩ :=
    New_registers_every_entry listingOS (str "/opt/plugins") demoFiles rfl
  refine ⟨pl, hnew, hlen.trans (by decide), hsome, fun f hf => ?_⟩
  have := hpin true [str "opt", str "plugins"] (by decide) (by decide) (by decide)
    (by decide) f hf
  simpa using this

end plugins

namespace cmd

open plugins

/-- C10: when the directory cannot be listed, `New` returns the error of the
listing and no registry, and `MakeCommandHandler` hands back no handler: it
ends in the panic of dereferencing the nil registry. -/
theorem no_handler_when_listing_fails (os : OS) (pfx directory : GoString) (err : OSError)
    (h : os.ReadDir directory = .error err) :
    New os directory = (none, some (GoError.OS err)) ∧
    (∀ handler : MessageHandler, MakeCommandHandler os pfx directory ≠ .ok handler) ∧
    MakeCommandHandler os pfx directory = .error GoPanic.nilDereference := by
  have hnew : New os directory = (none, some (GoError.OS err)) := by
    simp only [New, h]
  have hmake : MakeCommandHandler os pfx directory = .error GoPanic.nilDereference := by
    simp only [MakeCommandHandler, hnew]
  refine ⟨hnew, fun handler hh => ?_, hmake⟩
  rw [hmake] at hh
  cases hh

/-- C10, witness: the directory `/nowhere` does not exist on `demoOS`. -/
theorem no_handler_when_listing_fails_witness :
    New (demoOS .launchFailed) (str "/nowhere")
      = (none, some (GoError.OS { text := str "no such file or directory" })) ∧
    (∀ handler : MessageHandler,
      MakeCommandHandler (demoOS .launchFailed) (str "bot") (str "/nowhere") ≠ .ok handler) ∧
    MakeCommandHandler (demoOS .launchFailed) (str "bot") (str "/nowhere")
      = .error GoPanic.nilDereference :=
  no_handler_when_listing_fails (demoOS .launchFailed) (str "bot") (str "/nowhere")
    { text := str "no such file or directory" } rfl

end cmd
